import Mathlib

/-!
Verification of the incremental indexing / synchronization pipeline
(`document_processor.py`, `app.py`, `upload_handlers.py`).

Strings are modelled as `List Char`; Python integer indices (which may be
negative) are modelled as `Int`, with Python's slice / `str.rfind` index
adjustment made explicit.  Loops whose termination is in question are
modelled with explicit fuel, returning `none` when the fuel runs out.
-/

namespace RagPath

/-- Python `str.isspace` characters relevant to `str.strip()`. -/
def isPySpace (c : Char) : Bool :=
  c == ' ' || c == '\t' || c == '\n' || c == '\r' || c == '\x0b' || c == '\x0c'

/-- Python `str.strip`-style trimming with an arbitrary character class `p`:
drop matching characters from both ends. -/
def pyStripP (p : Char → Bool) (s : List Char) : List Char :=
  ((s.dropWhile p).reverse.dropWhile p).reverse

/-- Python `str.strip()` (no argument): trim whitespace from both ends. -/
def pyStrip (s : List Char) : List Char :=
  pyStripP isPySpace s

/-- Python slice/`rfind` index adjustment: a negative index counts from the
end (clamped below at 0); a non-negative index is clamped above at the
length. -/
def pyAdjustIndex (L : Nat) (i : Int) : Nat :=
  if i < 0 then (i + L).toNat else min i.toNat L

/-- Python slice `s[a:b]` with full negative-index semantics. -/
def pySlice (s : List Char) (a b : Int) : List Char :=
  (s.take (pyAdjustIndex s.length b)).drop (pyAdjustIndex s.length a)

/-- Whether `sub` occurs in `s` starting at (non-negative) position `i`. -/
def isSubAt (s sub : List Char) (i : Nat) : Bool :=
  (s.drop i).take sub.length == sub

/-- Python `s.rfind(sub, a, b)`: the largest position `i` with
`adjust a ≤ i`, `i + len sub ≤ adjust b` and `sub` occurring at `i`;
`-1` when there is none. -/
def pyRfind (s sub : List Char) (a b : Int) : Int :=
  match ((List.range (s.length + 1)).filter
      (fun i => decide (pyAdjustIndex s.length a ≤ i) &&
        decide (i + sub.length ≤ pyAdjustIndex s.length b) &&
        isSubAt s sub i)).reverse.head? with
  | some i => (i : Int)
  | none => -1

/-- Python `sub in s` (substring containment, used by
`filter_changed_documents`). -/
def isSubstring (sub s : List Char) : Bool :=
  (List.range (s.length + 1)).any (fun i => isSubAt s sub i)

/-- Configuration of `DocumentProcessor`: `chunk_size` and `chunk_overlap`
from `__init__`. -/
structure SplitConfig where
  chunk_size : Nat
  chunk_overlap : Nat
deriving DecidableEq

/-- The cut-point search of `DocumentProcessor.split_text` (lines 299-316):
`end = start + chunk_size`, then, when `end < len(text)`, try in order the
last paragraph break, the last sentence terminator, the last space, each
required to lie strictly after `start`. -/
def cutEnd (text : List Char) (cfg : SplitConfig) (start : Int) : Int :=
  if start + (cfg.chunk_size : Int) < (text.length : Int) then
    if pyRfind text "\n\n".toList start (start + (cfg.chunk_size : Int)) > start then
      pyRfind text "\n\n".toList start (start + (cfg.chunk_size : Int))
    else if pyRfind text ". ".toList start (start + (cfg.chunk_size : Int)) > start then
      pyRfind text ". ".toList start (start + (cfg.chunk_size : Int)) + 1
    else if pyRfind text " ".toList start (start + (cfg.chunk_size : Int)) > start then
      pyRfind text " ".toList start (start + (cfg.chunk_size : Int))
    else start + (cfg.chunk_size : Int)
  else start + (cfg.chunk_size : Int)

/-- The chunk `text[start:end].strip()` produced in one iteration of the
`split_text` loop (line 318). -/
def emittedChunk (text : List Char) (cfg : SplitConfig) (start : Int) : List Char :=
  pyStrip (pySlice text start (cutEnd text cfg start))

/-- The next offset: `start = end - chunk_overlap if end < len(text) else end`
(line 322). -/
def nextStart (text : List Char) (cfg : SplitConfig) (start : Int) : Int :=
  if cutEnd text cfg start < (text.length : Int) then
    cutEnd text cfg start - (cfg.chunk_overlap : Int)
  else cutEnd text cfg start

/-- The `while start < len(text)` loop of `split_text` (lines 298-322), with
explicit fuel; `none` models non-termination within the given fuel.
Non-empty stripped chunks are appended (lines 318-320). -/
def splitLoop (text : List Char) (cfg : SplitConfig) :
    Nat → Int → List (List Char) → Option (List (List Char))
  | 0, start, acc => if start < (text.length : Int) then none else some acc
  | fuel + 1, start, acc =>
    if start < (text.length : Int) then
      splitLoop text cfg fuel (nextStart text cfg start)
        (if (emittedChunk text cfg start).isEmpty then acc
         else acc ++ [emittedChunk text cfg start])
    else some acc

/-- `DocumentProcessor.split_text` (lines 282-324): texts no longer than
`chunk_size` are returned whole as a single chunk; otherwise the chunking
loop runs from offset 0. -/
def split_text (cfg : SplitConfig) (fuel : Nat) (text : List Char) :
    Option (List (List Char)) :=
  if text.length ≤ cfg.chunk_size then some [text]
  else splitLoop text cfg fuel 0 []

/-! ### Claim C1: the `start` offset can stall, so the loop can diverge

On `text = "abcde fghijklmnop"` with `chunk_size = 10`, `overlap = 5`
(so `overlap < chunk_size`), the first iteration cuts at the space at
index 5 and sets `start = 5 - 5 = 0`: the offset stalls at 0 forever. -/

def c1text : List Char := "abcde fghijklmnop".toList

def c1cfg : SplitConfig := { chunk_size := 10, chunk_overlap := 5 }

lemma c1_loop_stalls : ∀ fuel acc,
    splitLoop c1text c1cfg fuel 0 acc = none := by
  intro fuel
  induction fuel with
  | zero => intro acc; rfl
  | succ n ih =>
    intro acc
    have hstep : splitLoop c1text c1cfg (n + 1) 0 acc =
        splitLoop c1text c1cfg n 0 (acc ++ [['a', 'b', 'c', 'd', 'e']]) := rfl
    rw [hstep]
    exact ih _

/-- Claim C1 (code bug, witnessing theorem): with `overlap < chunk_size`
(`chunk_size = 10`, `overlap = 5`) and input `"abcde fghijklmnop"`, the
`split_text` loop never terminates for any amount of fuel — right at the
first iteration `nextStart` maps the offset 0 back to 0, so `start` stalls
rather than strictly increasing. -/
theorem C1_split_text_diverges :
    (∀ fuel, split_text c1cfg fuel c1text = none) ∧
      nextStart c1text c1cfg 0 = 0 := by
  constructor
  · intro fuel
    have h : split_text c1cfg fuel c1text = splitLoop c1text c1cfg fuel 0 [] := by
      rfl
    rw [h]
    exact c1_loop_stalls fuel []
  · decide

/-! ### Claim C4: the short-text path returns the text unchanged, not trimmed -/

/-- Claim C4 (counterexample): for the short text `" a "` (length 3 ≤
`chunk_size`), `split_text` returns the single chunk `" a "` as-is, which is
not the trimmed text `"a"`. -/
theorem C4_short_text_not_trimmed :
    split_text { chunk_size := 1000, chunk_overlap := 200 } 0 " a ".toList =
        some [" a ".toList] ∧
      [" a ".toList] ≠ [pyStrip " a ".toList] := by
  constructor
  · rfl
  · decide

/-- Claim C4 (amended): for every text whose length is at most `chunk_size`,
`split_text` returns exactly one chunk equal to the input text unchanged
(leading/trailing whitespace is kept, not stripped). -/
theorem C4_short_text_single_chunk (cfg : SplitConfig) (fuel : Nat)
    (text : List Char) (h : text.length ≤ cfg.chunk_size) :
    split_text cfg fuel text = some [text] := by
  unfold split_text
  rw [if_pos h]

/-- Claim C4 witness: the amended theorem at the concrete input `"hi"` with
`chunk_size = 1000`. -/
theorem C4_short_text_single_chunk_witness :
    ("hi".toList).length ≤ 1000 ∧
      split_text { chunk_size := 1000, chunk_overlap := 200 } 0 "hi".toList =
        some ["hi".toList] :=
  ⟨by decide,
    C4_short_text_single_chunk { chunk_size := 1000, chunk_overlap := 200 } 0
      "hi".toList (by decide)⟩

/-! ### Data model: `Document` chunks (document_processor.py lines 14-20)

`metadata` is a Python dict; the keys actually written by `load_document`
and `load_uploaded_file` are modelled as a structure, with the optional
`upload_type` key as an `Option`. -/

structure DocMetadata where
  file_name : List Char
  file_type : List Char
  chunk_index : Nat
  total_chunks : Nat
  upload_type : Option (List Char)
deriving DecidableEq

structure Document where
  content : List Char
  source : List Char
  chunk_id : Nat
  metadata : DocMetadata
deriving DecidableEq

/-- `DocumentProcessor.filter_changed_documents` (lines 326-347): a document
is kept as soon as some changed file identifier occurs as a substring of
its source (the inner `for`/`break` is a `List.any`). -/
def filter_changed_documents (all_docs : List Document)
    (changed_files : List (List Char)) : List Document :=
  all_docs.filter (fun doc => changed_files.any (fun cf => isSubstring cf doc.source))

/-! ### Claim C2: change matching is a substring test, not exact equality -/

def c2doc : Document :=
  { content := "x".toList
    source := "legacy/docs/api.md".toList
    chunk_id := 0
    metadata :=
      { file_name := "api.md".toList
        file_type := ".md".toList
        chunk_index := 0
        total_chunks := 1
        upload_type := none } }

/-- Claim C2 (code bug, witnessing theorem): a document whose source is
`"legacy/docs/api.md"` is selected for reindexing by the changed-file list
`["docs/api.md"]` even though its source is not equal to the changed
identifier — the code over-matches on substring containment. -/
theorem C2_substring_overmatch :
    filter_changed_documents [c2doc] ["docs/api.md".toList] = [c2doc] ∧
      c2doc.source ≠ "docs/api.md".toList := by
  constructor
  · rfl
  · decide

/-! ### Basic facts about the Python string primitives -/

lemma length_dropWhile_le (p : Char → Bool) :
    ∀ l : List Char, (l.dropWhile p).length ≤ l.length := by
  intro l
  induction l with
  | nil => simp
  | cons a t ih =>
    rw [List.dropWhile_cons]
    split
    · exact le_trans ih (by simp)
    · simp

lemma pyStripP_length_le (p : Char → Bool) (s : List Char) :
    (pyStripP p s).length ≤ s.length := by
  have h1 := length_dropWhile_le p s
  have h2 := length_dropWhile_le p (s.dropWhile p).reverse
  simp only [pyStripP, List.length_reverse] at *
  omega

lemma dropWhile_head?_not (p : Char → Bool) :
    ∀ (l : List Char) (x : Char), (l.dropWhile p).head? = some x → p x = false := by
  intro l
  induction l with
  | nil => intro x h; simp at h
  | cons a t ih =>
    intro x h
    rw [List.dropWhile_cons] at h
    split at h
    · exact ih x h
    · simp only [List.head?_cons, Option.some.injEq] at h
      subst h
      rename_i hpa
      simp only [Bool.not_eq_true] at hpa
      exact hpa

lemma forall_mem_dropWhile (p : Char → Bool) :
    ∀ l : List Char, (∀ x ∈ l.dropWhile p, p x = true) ↔ (∀ x ∈ l, p x = true) := by
  intro l
  induction l with
  | nil => simp
  | cons a t ih =>
    rw [List.dropWhile_cons]
    split
    · rw [ih]
      constructor
      · intro h x hx
        rcases List.mem_cons.mp hx with rfl | hx'
        · assumption
        · exact h x hx'
      · intro h x hx
        exact h x (List.mem_cons_of_mem _ hx)
    · exact Iff.rfl

lemma pyStripP_eq_nil_iff (p : Char → Bool) (s : List Char) :
    pyStripP p s = [] ↔ ∀ x ∈ s, p x = true := by
  unfold pyStripP
  rw [List.reverse_eq_nil_iff, List.dropWhile_eq_nil_iff]
  constructor
  · intro h
    rw [← forall_mem_dropWhile p s]
    intro x hx
    exact h x (List.mem_reverse.mpr hx)
  · intro h x hx
    exact (forall_mem_dropWhile p s).mpr h x (List.mem_reverse.mp hx)

lemma pyStripP_stripP_ne_nil (p : Char → Bool) (s : List Char)
    (h : pyStripP p s ≠ []) : pyStripP p (pyStripP p s) ≠ [] := by
  intro hnil
  rw [pyStripP_eq_nil_iff] at hnil
  cases hu : (s.dropWhile p).reverse.dropWhile p with
  | nil =>
    apply h
    unfold pyStripP
    rw [hu]
    rfl
  | cons a t =>
    have hpa : p a = false := dropWhile_head?_not p (s.dropWhile p).reverse a (by rw [hu]; rfl)
    have hmem : a ∈ pyStripP p s := by
      unfold pyStripP
      rw [hu]
      exact List.mem_reverse.mpr (List.mem_cons_self a t)
    have := hnil a hmem
    rw [hpa] at this
    exact Bool.false_ne_true this

lemma pyAdjustIndex_le_length (L : Nat) (i : Int) : pyAdjustIndex L i ≤ L := by
  unfold pyAdjustIndex
  split
  · omega
  · exact Nat.min_le_right _ _

lemma pyAdjustIndex_of_nonneg (L : Nat) (i : Int) (h : 0 ≤ i) :
    pyAdjustIndex L i ≤ i.toNat := by
  unfold pyAdjustIndex
  rw [if_neg (by omega)]
  exact Nat.min_le_left _ _

lemma pyAdjustIndex_add_le (L : Nat) (i : Int) (c : Nat) :
    pyAdjustIndex L (i + c) ≤ pyAdjustIndex L i + c := by
  unfold pyAdjustIndex
  simp only [Nat.min_def]
  split_ifs <;> omega

lemma pySlice_length (s : List Char) (a b : Int) :
    (pySlice s a b).length =
      pyAdjustIndex s.length b - pyAdjustIndex s.length a := by
  unfold pySlice
  rw [List.length_drop, List.length_take,
    Nat.min_eq_left (pyAdjustIndex_le_length s.length b)]

lemma mem_of_head?_eq_some {α : Type} {l : List α} {x : α}
    (h : l.head? = some x) : x ∈ l := by
  cases l with
  | nil => simp at h
  | cons a t =>
    simp only [List.head?_cons, Option.some.injEq] at h
    subst h
    exact List.mem_cons_self a t

/-- Either `rfind` fails (result `-1`), or it returns a position inside the
adjusted search window, with the pattern fitting below the adjusted upper
bound. -/
lemma pyRfind_spec (s sub : List Char) (a b : Int) :
    pyRfind s sub a b = -1 ∨
      (0 ≤ pyRfind s sub a b ∧
        pyAdjustIndex s.length a ≤ (pyRfind s sub a b).toNat ∧
        (pyRfind s sub a b).toNat + sub.length ≤ pyAdjustIndex s.length b) := by
  unfold pyRfind
  cases hh : ((List.range (s.length + 1)).filter
      (fun i => decide (pyAdjustIndex s.length a ≤ i) &&
        decide (i + sub.length ≤ pyAdjustIndex s.length b) &&
        isSubAt s sub i)).reverse.head? with
  | none => left; rfl
  | some i =>
    right
    have hmem := List.mem_reverse.mp (mem_of_head?_eq_some hh)
    have hcond := (List.mem_filter.mp hmem).2
    simp only [Bool.and_eq_true, decide_eq_true_eq] at hcond
    show 0 ≤ (i : Int) ∧ pyAdjustIndex s.length a ≤ (i : Int).toNat ∧
      (i : Int).toNat + sub.length ≤ pyAdjustIndex s.length b
    refine ⟨by omega, by omega, by omega⟩

/-- Case analysis on the cut point chosen by one iteration of `split_text`:
either the hard cut `start + chunk_size`, or a non-negative position that is
bounded by the adjusted window end and lies strictly inside the text, or the
pathological value `-1` (a failed `rfind` compared against `start ≤ -2`). -/
lemma cutEnd_cases (text : List Char) (cfg : SplitConfig) (start : Int)
    (hL : 1 ≤ text.length) :
    cutEnd text cfg start = start + (cfg.chunk_size : Int) ∨
      (0 ≤ cutEnd text cfg start ∧
        (cutEnd text cfg start).toNat ≤
          pyAdjustIndex text.length (start + (cfg.chunk_size : Int)) ∧
        (cutEnd text cfg start).toNat < text.length) ∨
      (cutEnd text cfg start = -1 ∧ start ≤ -2) := by
  have hb := pyAdjustIndex_le_length text.length (start + (cfg.chunk_size : Int))
  unfold cutEnd
  split_ifs with h1 h2 h3 h4
  · rcases pyRfind_spec text "\n\n".toList start (start + (cfg.chunk_size : Int)) with
      hr | ⟨hr0, _, hrb⟩
    · right; right; omega
    · right; left
      have hlen2 : ("\n\n".toList).length = 2 := rfl
      omega
  · rcases pyRfind_spec text ". ".toList start (start + (cfg.chunk_size : Int)) with
      hr | ⟨hr0, _, hrb⟩
    · right; left
      rw [hr]
      omega
    · right; left
      have hlen2 : (". ".toList).length = 2 := rfl
      omega
  · rcases pyRfind_spec text " ".toList start (start + (cfg.chunk_size : Int)) with
      hr | ⟨hr0, _, hrb⟩
    · right; right; omega
    · right; left
      have hlen1 : (" ".toList).length = 1 := rfl
      omega
  · left; rfl
  · left; rfl

/-- The span cut out by one iteration never exceeds `chunk_size`, provided
`overlap ≤ chunk_size`, the text is longer than `chunk_size`, and the
running offset respects the loop invariant `-1 - overlap ≤ start`. -/
lemma emittedChunk_length_le (text : List Char) (cfg : SplitConfig) (start : Int)
    (hov : cfg.chunk_overlap ≤ cfg.chunk_size) (hL : cfg.chunk_size < text.length)
    (hstart : -1 - (cfg.chunk_overlap : Int) ≤ start) :
    (emittedChunk text cfg start).length ≤ cfg.chunk_size := by
  have hL1 : 1 ≤ text.length := by omega
  have hslice := pySlice_length text start (cutEnd text cfg start)
  have hstriple := pyStripP_length_le isPySpace (pySlice text start (cutEnd text cfg start))
  have hkey : pyAdjustIndex text.length (cutEnd text cfg start) ≤
      pyAdjustIndex text.length start + cfg.chunk_size := by
    rcases cutEnd_cases text cfg start hL1 with hc | ⟨hpos, hle, _⟩ | ⟨hm1, hst2⟩
    · rw [hc]
      exact pyAdjustIndex_add_le text.length start cfg.chunk_size
    · have h2 := pyAdjustIndex_of_nonneg text.length (cutEnd text cfg start) hpos
      have h3 := pyAdjustIndex_add_le text.length start cfg.chunk_size
      omega
    · rw [hm1]
      unfold pyAdjustIndex
      rw [if_pos (by omega : (-1 : Int) < 0), if_pos (by omega : start < 0)]
      omega
  unfold emittedChunk pyStrip
  omega

/-- The loop invariant `-1 - overlap ≤ start` is preserved by `nextStart`
whenever `overlap ≤ chunk_size`. -/
lemma nextStart_lower (text : List Char) (cfg : SplitConfig) (start : Int)
    (hov : cfg.chunk_overlap ≤ cfg.chunk_size) (hL1 : 1 ≤ text.length)
    (hstart : -1 - (cfg.chunk_overlap : Int) ≤ start) :
    -1 - (cfg.chunk_overlap : Int) ≤ nextStart text cfg start := by
  unfold nextStart
  rcases cutEnd_cases text cfg start hL1 with hc | ⟨hpos, _, _⟩ | ⟨hm1, _⟩ <;>
    split_ifs <;> omega

/-- Generic invariant lemma for the chunking loop: if `Q` is preserved by
`nextStart` and every non-empty emitted chunk at a `Q`-state satisfies `P`,
then all chunks of a successful run (starting from a `P`-good accumulator)
satisfy `P`. -/
lemma splitLoop_invariant (text : List Char) (cfg : SplitConfig)
    (Q : Int → Prop) (P : List Char → Prop)
    (hQ : ∀ start, Q start → Q (nextStart text cfg start))
    (hP : ∀ start, Q start → (emittedChunk text cfg start).isEmpty = false →
      P (emittedChunk text cfg start)) :
    ∀ (fuel : Nat) (start : Int) (acc chunks : List (List Char)),
      Q start → (∀ c ∈ acc, P c) →
      splitLoop text cfg fuel start acc = some chunks → ∀ c ∈ chunks, P c := by
  intro fuel
  induction fuel with
  | zero =>
    intro start acc chunks _ hacc h
    simp only [splitLoop] at h
    split at h
    · exact absurd h (by simp)
    · injection h with h'
      subst h'
      exact hacc
  | succ n ih =>
    intro start acc chunks hq hacc h
    simp only [splitLoop] at h
    split at h
    · refine ih _ _ _ (hQ start hq) ?_ h
      intro c hc
      by_cases he : (emittedChunk text cfg start).isEmpty
      · rw [if_pos he] at hc
        exact hacc c hc
      · rw [if_neg he] at hc
        rcases List.mem_append.mp hc with hc1 | hc2
        · exact hacc c hc1
        · have hce : c = emittedChunk text cfg start := by simpa using hc2
          rw [hce]
          exact hP start hq (by rw [Bool.not_eq_true] at he; exact he)
    · injection h with h'
      subst h'
      exact hacc

/-- When `overlap > chunk_size` (and the text is longer than `chunk_size`),
the offset can never reach `len(text) - chunk_size`, so the loop runs out of
any amount of fuel: `split_text` diverges on this configuration class. -/
lemma splitLoop_none_of_big_overlap (text : List Char) (cfg : SplitConfig)
    (hov : cfg.chunk_size < cfg.chunk_overlap) (hL : cfg.chunk_size < text.length) :
    ∀ (fuel : Nat) (start : Int) (acc : List (List Char)),
      start < (text.length : Int) - cfg.chunk_size →
      splitLoop text cfg fuel start acc = none := by
  have hL1 : 1 ≤ text.length := by omega
  intro fuel
  induction fuel with
  | zero =>
    intro start acc hs
    simp only [splitLoop]
    rw [if_pos (by omega)]
  | succ n ih =>
    intro start acc hs
    simp only [splitLoop]
    rw [if_pos (by omega)]
    apply ih
    unfold nextStart
    rcases cutEnd_cases text cfg start hL1 with hc | ⟨hpos, _, hlt⟩ | ⟨hm1, _⟩ <;>
      split_ifs <;> omega

/-! ### Claim C10: every returned chunk has length at most `chunk_size` -/

/-- Claim C10: whenever `split_text` returns, every chunk in the returned
list has length at most `chunk_size` — the short-text path returns the text
itself (of bounded length), the loop path cuts spans of at most `chunk_size`
characters, and configurations with `overlap > chunk_size` never return. -/
theorem C10_chunk_length_bounded (cfg : SplitConfig) (fuel : Nat)
    (text : List Char) (chunks : List (List Char))
    (h : split_text cfg fuel text = some chunks) :
    ∀ c ∈ chunks, c.length ≤ cfg.chunk_size := by
  unfold split_text at h
  by_cases hlen : text.length ≤ cfg.chunk_size
  · rw [if_pos hlen] at h
    injection h with h'
    subst h'
    intro c hc
    have : c = text := by simpa using hc
    rw [this]
    exact hlen
  · rw [if_neg hlen] at h
    rcases le_or_lt cfg.chunk_overlap cfg.chunk_size with hov | hov
    · exact splitLoop_invariant text cfg
        (fun s => -1 - (cfg.chunk_overlap : Int) ≤ s)
        (fun c => c.length ≤ cfg.chunk_size)
        (fun s hq => nextStart_lower text cfg s hov (by omega) hq)
        (fun s hq _ => emittedChunk_length_le text cfg s hov (by omega) hq)
        fuel 0 [] chunks (by omega) (by simp) h
    · exfalso
      rw [splitLoop_none_of_big_overlap text cfg hov (by omega) fuel 0 []
        (by omega)] at h
      exact Option.noConfusion h

def c10text : List Char := "abcdefghijk".toList

def c10cfg : SplitConfig := { chunk_size := 5, chunk_overlap := 2 }

def c10chunks : List (List Char) :=
  [['a', 'b', 'c', 'd', 'e'], ['d', 'e', 'f', 'g', 'h'], ['g', 'h', 'i', 'j', 'k']]

/-- Claim C10 witness: the bound instantiated on the concrete terminating
run `split_text ⟨5, 2⟩ "abcdefghijk" = ["abcde", "defgh", "ghijk"]`. -/
theorem C10_chunk_length_bounded_witness :
    (['a', 'b', 'c', 'd', 'e'] : List Char).length ≤ c10cfg.chunk_size :=
  C10_chunk_length_bounded c10cfg 10 c10text c10chunks rfl
    ['a', 'b', 'c', 'd', 'e'] (by decide)

/-! ### Claim C5: chunks non-empty after trimming — fails on the short path -/

/-- Claim C5 (counterexample): the whitespace-only text `" "` (length 1 ≤
`chunk_size`, with `overlap < chunk_size`) is returned as a single chunk
that is empty after trimming — the short path emits it instead of dropping
it. -/
theorem C5_whitespace_short_text_emitted :
    split_text { chunk_size := 1000, chunk_overlap := 200 } 0 " ".toList =
        some [" ".toList] ∧
      pyStrip " ".toList = [] := by
  constructor
  · rfl
  · decide

/-- Claim C5 (amended): for texts longer than `chunk_size` (the chunking
loop path) with `overlap < chunk_size`, every chunk returned by
`split_text` is non-empty after trimming: spans that are empty after
trimming are dropped, never emitted. (Texts of length at most `chunk_size`
are returned untrimmed and may be whitespace-only.) -/
theorem C5_loop_chunks_nonempty (cfg : SplitConfig) (fuel : Nat)
    (text : List Char) (chunks : List (List Char))
    (_hov : cfg.chunk_overlap < cfg.chunk_size)
    (hlen : cfg.chunk_size < text.length)
    (h : split_text cfg fuel text = some chunks) :
    ∀ c ∈ chunks, pyStrip c ≠ [] := by
  unfold split_text at h
  rw [if_neg (by omega)] at h
  refine splitLoop_invariant text cfg (fun _ => True) (fun c => pyStrip c ≠ [])
    (fun _ _ => trivial) ?_ fuel 0 [] chunks trivial (by simp) h
  intro s _ hne
  have hne' : emittedChunk text cfg s ≠ [] := by
    intro hnil
    rw [hnil] at hne
    exact absurd hne (by simp)
  unfold emittedChunk pyStrip at *
  exact pyStripP_stripP_ne_nil isPySpace _ hne'

/-- Claim C5 witness: the amended theorem instantiated on the concrete run
`split_text ⟨5, 2⟩ "abcdefghijk"`, at its first chunk `"abcde"`. -/
theorem C5_loop_chunks_nonempty_witness :
    pyStrip ['a', 'b', 'c', 'd', 'e'] ≠ [] :=
  C5_loop_chunks_nonempty c10cfg 10 c10text c10chunks (by decide) (by decide)
    rfl ['a', 'b', 'c', 'd', 'e'] (by decide)

/-! ### Extractor (document_processor.py lines 150-280)

The per-format parsing libraries (pdfplumber/PyPDF2, python-docx,
python-pptx) are external collaborators; they are abstracted as functions
from the raw file bytes to text, applied identically by the path entry
point and the bytes entry point.  Reading a text file from a path uses
Python text mode (`open(..., "r")`), which applies universal-newline
translation; decoding the same bytes with `bytes.decode` does not. -/

structure ExtractBackends where
  pdf : List Char → List Char
  docx : List Char → List Char
  pptx : List Char → List Char

/-- Python universal-newline translation performed by text-mode `open`:
`"\r\n"` and a lone `"\r"` both become `"\n"`. -/
def pyUniversalNewlines : List Char → List Char
  | [] => []
  | c :: rest =>
    if c = '\r' then
      match rest with
      | [] => ['\n']
      | c2 :: rest2 =>
        if c2 = '\n' then '\n' :: pyUniversalNewlines rest2
        else '\n' :: pyUniversalNewlines (c2 :: rest2)
    else c :: pyUniversalNewlines rest

/-- `PurePath.name`: the final path component (after the last `/`). -/
def pathName (p : List Char) : List Char :=
  (p.reverse.takeWhile (fun c => !(c == '/'))).reverse

/-- `PurePath.suffix`: the extension of the final component, from its last
dot, empty when the dot is leading or trailing. -/
def pathSuffix (p : List Char) : List Char :=
  if 0 < pyRfind (pathName p) ['.'] 0 ((pathName p).length : Int) ∧
      pyRfind (pathName p) ['.'] 0 ((pathName p).length : Int) <
        ((pathName p).length : Int) - 1 then
    pySlice (pathName p) (pyRfind (pathName p) ['.'] 0 ((pathName p).length : Int))
      ((pathName p).length : Int)
  else []

/-- `DocumentProcessor._extract_content` (lines 150-167): dispatch on the
lowered suffix of the path; text-based files are read in text mode
(universal newlines). -/
def extract_content (bk : ExtractBackends) (file_path fileBytes : List Char) :
    List Char :=
  if (pathSuffix file_path).map Char.toLower = ".pdf".toList then bk.pdf fileBytes
  else if (pathSuffix file_path).map Char.toLower = ".docx".toList then bk.docx fileBytes
  else if (pathSuffix file_path).map Char.toLower = ".pptx".toList then bk.pptx fileBytes
  else pyUniversalNewlines fileBytes

/-- `DocumentProcessor._extract_content_from_bytes` (lines 169-183):
dispatch on the declared extension; text-based files are decoded verbatim
(`bytes.decode`, no newline translation). -/
def extract_content_from_bytes (bk : ExtractBackends) (fileBytes ext : List Char) :
    List Char :=
  if ext = ".pdf".toList then bk.pdf fileBytes
  else if ext = ".docx".toList then bk.docx fileBytes
  else if ext = ".pptx".toList then bk.pptx fileBytes
  else fileBytes

/-! ### Chunk assembler (document_processor.py lines 84-101 and 126-144) -/

/-- The `for idx, chunk in enumerate(chunks)` loop body shared by
`load_document` and `load_uploaded_file`: wrap each chunk with its ordinal
`chunk_id`/`chunk_index` and the common `total_chunks`. -/
def assembleDocsAux (source fname ftype : List Char)
    (uploadType : Option (List Char)) (total : Nat) :
    Nat → List (List Char) → List Document
  | _, [] => []
  | i, c :: rest =>
    { content := c
      source := source
      chunk_id := i
      metadata :=
        { file_name := fname
          file_type := ftype
          chunk_index := i
          total_chunks := total
          upload_type := uploadType } } ::
      assembleDocsAux source fname ftype uploadType total (i + 1) rest

def assembleDocs (source fname ftype : List Char)
    (uploadType : Option (List Char)) (chunks : List (List Char)) : List Document :=
  assembleDocsAux source fname ftype uploadType chunks.length 0 chunks

/-- `DocumentProcessor.load_document` (lines 66-105): extract, bail out on
empty content, split, assemble.  `fileBytes` is the raw content of the file
at `file_path`; `none` models non-termination of `split_text`. -/
def load_document (cfg : SplitConfig) (fuel : Nat) (bk : ExtractBackends)
    (file_path fileBytes : List Char) : Option (List Document) :=
  if (extract_content bk file_path fileBytes).isEmpty then some []
  else
    match split_text cfg fuel (extract_content bk file_path fileBytes) with
    | none => none
    | some chunks =>
      some (assembleDocs file_path (pathName file_path) (pathSuffix file_path)
        none chunks)

/-- `DocumentProcessor.load_uploaded_file` (lines 107-148): like
`load_document` but from uploaded bytes with the lowered declared extension
and the extra `upload_type` metadata. -/
def load_uploaded_file (cfg : SplitConfig) (fuel : Nat) (bk : ExtractBackends)
    (filename fileBytes : List Char) : Option (List Document) :=
  if (extract_content_from_bytes bk fileBytes
      ((pathSuffix filename).map Char.toLower)).isEmpty then some []
  else
    match split_text cfg fuel (extract_content_from_bytes bk fileBytes
        ((pathSuffix filename).map Char.toLower)) with
    | none => none
    | some chunks =>
      some (assembleDocs filename filename ((pathSuffix filename).map Char.toLower)
        (some "direct_upload".toList) chunks)

/-- The metadata invariant of claim C6 for one assembled batch. -/
def batchOK (docs : List Document) : Prop :=
  (∀ d ∈ docs, d.metadata.total_chunks = docs.length ∧
    d.chunk_id = d.metadata.chunk_index) ∧
  docs.map (fun d => d.metadata.chunk_index) = List.range docs.length

lemma assembleDocsAux_mem (source fname ftype : List Char)
    (uploadType : Option (List Char)) (total : Nat) :
    ∀ (chunks : List (List Char)) (i : Nat),
      ∀ d ∈ assembleDocsAux source fname ftype uploadType total i chunks,
        d.metadata.total_chunks = total ∧ d.chunk_id = d.metadata.chunk_index := by
  intro chunks
  induction chunks with
  | nil => intro i d hd; simp [assembleDocsAux] at hd
  | cons c rest ih =>
    intro i d hd
    rcases List.mem_cons.mp hd with rfl | h2
    · exact ⟨rfl, rfl⟩
    · exact ih (i + 1) d h2

lemma assembleDocsAux_map (source fname ftype : List Char)
    (uploadType : Option (List Char)) (total : Nat) :
    ∀ (chunks : List (List Char)) (i : Nat),
      (assembleDocsAux source fname ftype uploadType total i chunks).map
          (fun d => d.metadata.chunk_index) =
        List.range' i chunks.length := by
  intro chunks
  induction chunks with
  | nil => intro i; rfl
  | cons c rest ih =>
    intro i
    simp only [assembleDocsAux, List.map_cons, List.length_cons, List.range'_succ]
    rw [ih (i + 1)]

lemma assembleDocsAux_length (source fname ftype : List Char)
    (uploadType : Option (List Char)) (total : Nat) :
    ∀ (chunks : List (List Char)) (i : Nat),
      (assembleDocsAux source fname ftype uploadType total i chunks).length =
        chunks.length := by
  intro chunks
  induction chunks with
  | nil => intro i; rfl
  | cons c rest ih =>
    intro i
    simp only [assembleDocsAux, List.length_cons]
    rw [ih (i + 1)]

lemma assembleDocs_batchOK (source fname ftype : List Char)
    (uploadType : Option (List Char)) (chunks : List (List Char)) :
    batchOK (assembleDocs source fname ftype uploadType chunks) := by
  constructor
  · intro d hd
    have hlen := assembleDocsAux_length source fname ftype uploadType
      chunks.length chunks 0
    have hmem := assembleDocsAux_mem source fname ftype uploadType
      chunks.length chunks 0 d hd
    unfold assembleDocs
    rw [hlen]
    exact hmem
  · have hlen := assembleDocsAux_length source fname ftype uploadType
      chunks.length chunks 0
    unfold assembleDocs
    rw [hlen, List.range_eq_range']
    exact assembleDocsAux_map source fname ftype uploadType chunks.length chunks 0

/-! ### Claim C6: per-batch metadata invariants of both loaders -/

/-- Claim C6: every batch produced in one pass of `load_document` or
`load_uploaded_file` carries a common `total_chunks` equal to the number of
chunks produced, `chunk_id` equals the `chunk_index` metadata, and the
`chunk_index` values form exactly `0..total_chunks-1`, in order, with no
gaps or repeats. -/
theorem C6_batch_metadata :
    (∀ (cfg : SplitConfig) (fuel : Nat) (bk : ExtractBackends)
        (file_path fileBytes : List Char) (docs : List Document),
        load_document cfg fuel bk file_path fileBytes = some docs → batchOK docs) ∧
    (∀ (cfg : SplitConfig) (fuel : Nat) (bk : ExtractBackends)
        (filename fileBytes : List Char) (docs : List Document),
        load_uploaded_file cfg fuel bk filename fileBytes = some docs →
          batchOK docs) := by
  constructor
  · intro cfg fuel bk file_path fileBytes docs h
    unfold load_document at h
    split at h
    · injection h with h'
      subst h'
      exact ⟨by simp, by simp⟩
    · split at h
      · exact absurd h (by simp)
      · injection h with h'
        subst h'
        exact assembleDocs_batchOK _ _ _ _ _
  · intro cfg fuel bk filename fileBytes docs h
    unfold load_uploaded_file at h
    split at h
    · injection h with h'
      subst h'
      exact ⟨by simp, by simp⟩
    · split at h
      · exact absurd h (by simp)
      · injection h with h'
        subst h'
        exact assembleDocs_batchOK _ _ _ _ _

def bkId : ExtractBackends :=
  { pdf := fun b => b, docx := fun b => b, pptx := fun b => b }

def c6docs : List Document :=
  [{ content := "hello".toList
     source := "notes.txt".toList
     chunk_id := 0
     metadata :=
       { file_name := "notes.txt".toList
         file_type := ".txt".toList
         chunk_index := 0
         total_chunks := 1
         upload_type := none } }]

/-- Claim C6 witness: the invariant instantiated on the concrete batch
loaded from `notes.txt` with content `"hello"`. -/
theorem C6_batch_metadata_witness :
    c6docs.map (fun d => d.metadata.chunk_index) = List.range c6docs.length :=
  (C6_batch_metadata.1 { chunk_size := 1000, chunk_overlap := 200 } 1 bkId
    "notes.txt".toList "hello".toList c6docs (by decide)).2

/-! ### Claim C7: path-based vs bytes-based extraction -/

lemma pyUniversalNewlines_of_no_cr :
    ∀ s : List Char, '\r' ∉ s → pyUniversalNewlines s = s := by
  intro s
  induction s with
  | nil => intro _; rfl
  | cons c rest ih =>
    intro h
    have hc : ¬ c = '\r' := fun hc => h (hc ▸ List.mem_cons_self c rest)
    have htail : '\r' ∉ rest := fun hm => h (List.mem_cons_of_mem c hm)
    cases rest with
    | nil =>
      have e : pyUniversalNewlines [c] = if c = '\r' then ['\n'] else [c] := rfl
      rw [e, if_neg hc]
    | cons c2 rest2 =>
      have e : pyUniversalNewlines (c :: c2 :: rest2) =
          if c = '\r' then
            (if c2 = '\n' then '\n' :: pyUniversalNewlines rest2
             else '\n' :: pyUniversalNewlines (c2 :: rest2))
          else c :: pyUniversalNewlines (c2 :: rest2) := rfl
      rw [e, if_neg hc, ih htail]

/-- Claim C7 (counterexample): for the text file `a.txt` with content
`"x\r\ny"`, extraction from the filesystem path (text-mode read, universal
newlines) yields `"x\ny"`, while extraction from the same bytes yields
`"x\r\ny"` — not identical text for identical content. -/
theorem C7_path_vs_bytes_differ :
    extract_content bkId "a.txt".toList ['x', '\r', '\n', 'y'] ≠
      extract_content_from_bytes bkId ['x', '\r', '\n', 'y']
        ((pathSuffix "a.txt".toList).map Char.toLower) := by
  decide

/-- Claim C7 (amended): extraction from a filesystem path and extraction
from an in-memory byte buffer (declared extension: that of the path)
produce identical text for identical content whenever the content contains
no carriage return; structured formats (.pdf/.docx/.pptx) agree
unconditionally since both entry points apply the same backend to the same
bytes, while the text branch differs exactly by the path reader's
universal-newline translation. -/
theorem C7_extraction_agrees_without_cr (bk : ExtractBackends)
    (file_path fileBytes : List Char) (h : '\r' ∉ fileBytes) :
    extract_content bk file_path fileBytes =
      extract_content_from_bytes bk fileBytes
        ((pathSuffix file_path).map Char.toLower) := by
  unfold extract_content extract_content_from_bytes
  split_ifs <;> first | rfl | exact pyUniversalNewlines_of_no_cr fileBytes h

/-- Claim C7 witness: the amended agreement at the concrete text file
`a.txt` with carriage-return-free content `"hi"`. -/
theorem C7_extraction_agrees_without_cr_witness :
    ('\r' ∉ "hi".toList) ∧
      extract_content bkId "a.txt".toList "hi".toList =
        extract_content_from_bytes bkId "hi".toList
          ((pathSuffix "a.txt".toList).map Char.toLower) :=
  ⟨by decide,
    C7_extraction_agrees_without_cr bkId "a.txt".toList "hi".toList (by decide)⟩

/-! ### Synchronizer (app.py `check_for_updates`, lines 54-81)

The Git watcher and the RAG index are external collaborators
(`git_watcher.py` and `rag_system.py` are not part of the analysed
sources); a synchronization cycle observes one watcher outcome and emits a
sequence of index operations. -/

/-- One observed outcome of the watcher collaborator during a cycle:
`check_for_updates()`, `pull_updates()` and `get_changed_files()`. -/
structure WatcherOutcome where
  hasUpdates : Bool
  pullOk : Bool
  changedFiles : List (List Char)
deriving DecidableEq

/-- A mutation issued against the index collaborator. -/
inductive IndexOp where
  | removeDocs : List (List Char) → IndexOp
  | addDocs : List Document → IndexOp
deriving DecidableEq

/-- Modelled from the spec: `rag_system.py` is not among the analysed
sources; spec section 6 gives `removeDocuments(sourceIds)` and section 3
says entries for a source are entirely replaced, so removal deletes every
chunk whose source is among the given identifiers. -/
def remove_documents (idx : List Document) (sources : List (List Char)) :
    List Document :=
  idx.filter (fun d => !(sources.any (fun s => s == d.source)))

/-- Modelled from the spec: `rag_system.py` is not among the analysed
sources; spec section 6 gives `indexDocuments(chunks)`, adding the given
chunks to the index. -/
def index_documents (idx : List Document) (docs : List Document) : List Document :=
  idx ++ docs

def applyIndexOp (idx : List Document) : IndexOp → List Document
  | IndexOp.removeDocs ss => remove_documents idx ss
  | IndexOp.addDocs ds => index_documents idx ds

def applyIndexOps : List Document → List IndexOp → List Document
  | idx, [] => idx
  | idx, op :: ops => applyIndexOps (applyIndexOp idx op) ops

/-- `check_for_updates` (app.py lines 54-81): when the watcher reports a
change and the pull succeeds, remove the changed sources' chunks, then add
the freshly filtered documents, and report `True`; otherwise issue no index
operation and report `False`.  `loadedDocs` is the batch reloaded from the
docs directory after the pull. -/
def check_for_updates (w : WatcherOutcome) (loadedDocs : List Document) :
    List IndexOp × Bool :=
  if w.hasUpdates then
    if w.pullOk then
      ([IndexOp.removeDocs w.changedFiles,
        IndexOp.addDocs (filter_changed_documents loadedDocs w.changedFiles)],
        true)
    else ([], false)
  else ([], false)

/-! ### Claim C3: a failed pull aborts the cycle before any index mutation -/

/-- Claim C3: whenever the pull step reports failure, the cycle issues no
remove or add operation against the index — so applying the cycle's
operations to any index state leaves it (and hence its chunk count)
unchanged — and the cycle returns the failure signal `False`. -/
theorem C3_pull_failure_leaves_index_unchanged (w : WatcherOutcome)
    (loadedDocs : List Document) (idx : List Document)
    (h : w.pullOk = false) :
    check_for_updates w loadedDocs = ([], false) ∧
      applyIndexOps idx (check_for_updates w loadedDocs).1 = idx := by
  have hcfu : check_for_updates w loadedDocs = ([], false) := by
    unfold check_for_updates
    rw [h]
    split <;> rfl
  exact ⟨hcfu, by rw [hcfu]; rfl⟩

def c3watcher : WatcherOutcome :=
  { hasUpdates := true, pullOk := false, changedFiles := ["docs/api.md".toList] }

/-- Claim C3 witness: the abort behaviour at a concrete watcher outcome
whose pull fails, against the concrete one-document index `c6docs`. -/
theorem C3_pull_failure_leaves_index_unchanged_witness :
    check_for_updates c3watcher [] = ([], false) ∧
      applyIndexOps c6docs (check_for_updates c3watcher []).1 = c6docs :=
  C3_pull_failure_leaves_index_unchanged c3watcher [] c6docs rfl

/-! ### Ingestors (upload_handlers.py)

Network, subprocess and file-system effects are modelled by environments
recording each effectful step's outcome in an `Except` (a Python exception
or a value); the handlers translate the source's `try/except` structure,
mapping every failure to the explicit absence value `none`. -/

inductive PyExc where
  | raised : PyExc
deriving DecidableEq

/-- Python `s.startswith(pre)`. -/
def pyStartsWith (s pre : List Char) : Bool :=
  s.take pre.length == pre

/-- Python `s.endswith(suf)`. -/
def pyEndsWith (s suf : List Char) : Bool :=
  decide (suf.length ≤ s.length) && (s.drop (s.length - suf.length) == suf)

/-- Python `s.split(sep)` for non-empty `sep` (left-to-right,
non-overlapping); `cur` accumulates the current field in reverse. -/
def pySplitOnAux (sep : List Char) : Nat → List Char → List Char → List (List Char)
  | _, cur, [] => [cur.reverse]
  | 0, cur, rest => [cur.reverse ++ rest]
  | fuel + 1, cur, c :: rest =>
    if (c :: rest).take sep.length == sep then
      cur.reverse :: pySplitOnAux sep fuel [] ((c :: rest).drop sep.length)
    else pySplitOnAux sep fuel (c :: cur) rest

def pySplitOn (s sep : List Char) : List (List Char) :=
  pySplitOnAux sep (s.length + 1) [] s

/-- Python `s.replace(old, new)` for non-empty `old` (left-to-right,
non-overlapping). -/
def pyReplaceAux (old new : List Char) : Nat → List Char → List Char
  | _, [] => []
  | 0, s => s
  | fuel + 1, c :: rest =>
    if (c :: rest).take old.length == old then
      new ++ pyReplaceAux old new fuel ((c :: rest).drop old.length)
    else c :: pyReplaceAux old new fuel rest

def pyReplace (s old new : List Char) : List Char :=
  pyReplaceAux old new (s.length + 1) s

/-- URL normalization of `GitHubRepoHandler.clone_repo` (lines 36-40):
prefix bare `owner/repo` forms with the canonical host. -/
def withGithubHost (repo_url : List Char) : List Char :=
  if pyStartsWith repo_url "http://".toList || pyStartsWith repo_url "https://".toList
  then repo_url
  else "https://github.com/".toList ++ repo_url

/-- URL normalization of `GitHubRepoHandler.clone_repo` (lines 36-40):
canonical clone URL, always ending in `.git`. -/
def normalize_repo_url (repo_url : List Char) : List Char :=
  if pyEndsWith (withGithubHost repo_url) ".git".toList then withGithubHost repo_url
  else withGithubHost repo_url ++ ".git".toList

/-- Effect outcomes observed by `GitHubRepoHandler.clone_repo`:
`tempfile.mkdtemp` and `subprocess.run(["git", "clone", ...], check=True)`
(the latter as a function of clone URL and target directory). -/
structure GitEnv where
  mkdtempResult : Except PyExc (List Char)
  cloneResult : List Char → List Char → Except PyExc Unit

/-- Lines 32-33: an explicit `target_dir` is used as-is, otherwise a fresh
temporary directory is created (which may itself fail). -/
def resolveTargetDir (env : GitEnv) (target_dir : Option (List Char)) :
    Except PyExc (List Char) :=
  match target_dir with
  | some d => Except.ok d
  | none => env.mkdtempResult

namespace GitHubRepoHandler

/-- `GitHubRepoHandler.clone_repo` (lines 19-60): resolve the target
directory, normalize the URL, run the clone; any raised exception is caught
at the boundary and mapped to `None`. -/
def clone_repo (env : GitEnv) (repo_url : List Char)
    (target_dir : Option (List Char)) : Option (List Char) :=
  match resolveTargetDir env target_dir with
  | Except.error _ => none
  | Except.ok dir =>
    match env.cloneResult (normalize_repo_url repo_url) dir with
    | Except.error _ => none
    | Except.ok _ => some dir

end GitHubRepoHandler

/-- `GoogleDriveHandler.extract_file_id` (lines 66-76): pure URL parsing;
`None` for unrecognized formats. -/
def extract_file_id (drive_url : List Char) : Option (List Char) :=
  if isSubstring "/file/d/".toList drive_url then
    some ((pySplitOn ((pySplitOn drive_url "/file/d/".toList).getD 1 [])
      "/".toList).getD 0 [])
  else if isSubstring "id=".toList drive_url then
    some ((pySplitOn ((pySplitOn drive_url "id=".toList).getD 1 [])
      "&".toList).getD 0 [])
  else if isSubstring "/open?id=".toList drive_url then
    some ((pySplitOn ((pySplitOn drive_url "/open?id=".toList).getD 1 [])
      "&".toList).getD 0 [])
  else none

/-- An HTTP response as observed by the Drive handler: its cookies and its
`content-disposition` header. -/
structure DriveResp where
  cookies : List (List Char × List Char)
  contentDisposition : List Char
deriving DecidableEq

/-- Effect outcomes observed by `GoogleDriveHandler.download_file`: the
initial GET, the confirmation GET replayed for a `download_warning` cookie
(lines 104-108, collapsed to its final response), the temp directory, and
the streaming write to the output file. -/
structure DriveEnv where
  firstGet : Except PyExc DriveResp
  confirmGet : Except PyExc DriveResp
  tempdir : List Char
  writeResult : List Char → Except PyExc Unit

/-- Lines 104-108: replay the request with a confirmation parameter when
some cookie key starts with `download_warning`. -/
def driveConfirmed (env : DriveEnv) (r0 : DriveResp) : Except PyExc DriveResp :=
  if r0.cookies.any (fun kv => pyStartsWith kv.1 "download_warning".toList) then
    env.confirmGet
  else Except.ok r0

/-- Lines 111-116: filename from the `content-disposition` header, else a
name derived from the file id. -/
def driveFilename (cd fid : List Char) : List Char :=
  if isSubstring "filename=".toList cd then
    pyStripP (fun c => c == '"') ((pySplitOn cd "filename=".toList).getD 1 [])
  else "drive_file_".toList ++ fid

/-- Line 118: `Path(tempfile.gettempdir()) / filename`, unless an explicit
output path was supplied. -/
def driveOutPath (env : DriveEnv) (resp : DriveResp) (fid : List Char)
    (output_path : Option (List Char)) : List Char :=
  match output_path with
  | some p => p
  | none => env.tempdir ++ '/' :: driveFilename resp.contentDisposition fid

namespace GoogleDriveHandler

/-- `GoogleDriveHandler.download_file` (lines 78-131): the guard
`if not file_id: return None` (lines 91-94) fires both on an unparsable URL
(`extract_file_id` gives `None`) and on an empty extracted id (Python
string truthiness), before any network call; every raised exception (GET,
confirmation GET, write) is caught at the boundary and mapped to `None`. -/
def download_file (env : DriveEnv) (drive_url : List Char)
    (output_path : Option (List Char)) : Option (List Char) :=
  match extract_file_id drive_url with
  | none => none
  | some fid =>
    if fid.isEmpty then none
    else
    match env.firstGet with
    | Except.error _ => none
    | Except.ok r0 =>
      match driveConfirmed env r0 with
      | Except.error _ => none
      | Except.ok resp =>
        match env.writeResult (driveOutPath env resp fid output_path) with
        | Except.error _ => none
        | Except.ok _ => some (driveOutPath env resp fid output_path)

end GoogleDriveHandler

/-- `DropboxHandler.download_file` URL rewrite (lines 166-173): swap the
host to the direct-download host and force `dl=1`. -/
def dropbox_download_url (u : List Char) : List Char :=
  if isSubstring "www.dropbox.com".toList u then
    if isSubstring "?dl=0".toList
        (pyReplace u "www.dropbox.com".toList "dl.dropboxusercontent.com".toList) then
      pyReplace (pyReplace u "www.dropbox.com".toList "dl.dropboxusercontent.com".toList)
        "?dl=0".toList "?dl=1".toList
    else if !(isSubstring "dl=".toList
        (pyReplace u "www.dropbox.com".toList "dl.dropboxusercontent.com".toList)) then
      pyReplace u "www.dropbox.com".toList "dl.dropboxusercontent.com".toList ++
        "?dl=1".toList
    else pyReplace u "www.dropbox.com".toList "dl.dropboxusercontent.com".toList
  else u

/-- An HTTP response as observed by the Dropbox handler: whether
`raise_for_status()` passes. -/
structure DropboxResp where
  statusOk : Bool
deriving DecidableEq

/-- Effect outcomes observed by `DropboxHandler.download_file`: the GET (as
a function of the rewritten URL), the temp directory, and the streaming
write. -/
structure DropboxEnv where
  getResult : List Char → Except PyExc DropboxResp
  tempdir : List Char
  writeResult : List Char → Except PyExc Unit

/-- Lines 181-183: filename from the sharing URL (`split('/')[-1]` then
`split('?')[0]`), unless an explicit output path was supplied. -/
def dropboxOutPath (env : DropboxEnv) (dropbox_url : List Char)
    (output_path : Option (List Char)) : List Char :=
  match output_path with
  | some p => p
  | none =>
    env.tempdir ++ '/' ::
      (pySplitOn ((pySplitOn dropbox_url "/".toList).getLastD []) "?".toList).getD 0 []

namespace DropboxHandler

/-- `DropboxHandler.download_file` (lines 152-196): a failing status raises
in `raise_for_status()`; that and every other raised exception is caught at
the boundary and mapped to `None`. -/
def download_file (env : DropboxEnv) (dropbox_url : List Char)
    (output_path : Option (List Char)) : Option (List Char) :=
  match env.getResult (dropbox_download_url dropbox_url) with
  | Except.error _ => none
  | Except.ok r =>
    if r.statusOk = false then none
    else
      match env.writeResult (dropboxOutPath env dropbox_url output_path) with
      | Except.error _ => none
      | Except.ok _ => some (dropboxOutPath env dropbox_url output_path)

end DropboxHandler

/-! ### Claim C8: every ingestor returns a local path or `none`, never raising -/

/-- Claim C8: for every input locator and every outcome of the effectful
steps, each of the three ingestors either returns `none` (and does so for
every failing step: malformed URL, empty extracted file id, failed temp-dir
creation, failed clone/GET/confirmation/status check/write), or returns
`some` of the local
materialized path with every step of its pipeline having succeeded; no
other behaviour (in particular no propagated exception) is possible at the
boundary. -/
theorem C8_ingestor_boundary :
    (∀ (env : GitEnv) (repo_url : List Char) (target_dir : Option (List Char)),
      (∃ e, resolveTargetDir env target_dir = Except.error e ∧
        GitHubRepoHandler.clone_repo env repo_url target_dir = none) ∨
      (∃ dir e, resolveTargetDir env target_dir = Except.ok dir ∧
        env.cloneResult (normalize_repo_url repo_url) dir = Except.error e ∧
        GitHubRepoHandler.clone_repo env repo_url target_dir = none) ∨
      (∃ dir, resolveTargetDir env target_dir = Except.ok dir ∧
        env.cloneResult (normalize_repo_url repo_url) dir = Except.ok () ∧
        GitHubRepoHandler.clone_repo env repo_url target_dir = some dir)) ∧
    (∀ (env : DriveEnv) (drive_url : List Char) (output_path : Option (List Char)),
      (extract_file_id drive_url = none ∧
        GoogleDriveHandler.download_file env drive_url output_path = none) ∨
      (extract_file_id drive_url = some [] ∧
        GoogleDriveHandler.download_file env drive_url output_path = none) ∨
      (∃ fid e, extract_file_id drive_url = some fid ∧ fid ≠ [] ∧
        env.firstGet = Except.error e ∧
        GoogleDriveHandler.download_file env drive_url output_path = none) ∨
      (∃ fid r0 e, extract_file_id drive_url = some fid ∧ fid ≠ [] ∧
        env.firstGet = Except.ok r0 ∧ driveConfirmed env r0 = Except.error e ∧
        GoogleDriveHandler.download_file env drive_url output_path = none) ∨
      (∃ fid r0 resp e, extract_file_id drive_url = some fid ∧ fid ≠ [] ∧
        env.firstGet = Except.ok r0 ∧ driveConfirmed env r0 = Except.ok resp ∧
        env.writeResult (driveOutPath env resp fid output_path) = Except.error e ∧
        GoogleDriveHandler.download_file env drive_url output_path = none) ∨
      (∃ fid r0 resp, extract_file_id drive_url = some fid ∧ fid ≠ [] ∧
        env.firstGet = Except.ok r0 ∧ driveConfirmed env r0 = Except.ok resp ∧
        env.writeResult (driveOutPath env resp fid output_path) = Except.ok () ∧
        GoogleDriveHandler.download_file env drive_url output_path =
          some (driveOutPath env resp fid output_path))) ∧
    (∀ (env : DropboxEnv) (dropbox_url : List Char) (output_path : Option (List Char)),
      (∃ e, env.getResult (dropbox_download_url dropbox_url) = Except.error e ∧
        DropboxHandler.download_file env dropbox_url output_path = none) ∨
      (∃ r, env.getResult (dropbox_download_url dropbox_url) = Except.ok r ∧
        r.statusOk = false ∧
        DropboxHandler.download_file env dropbox_url output_path = none) ∨
      (∃ r e, env.getResult (dropbox_download_url dropbox_url) = Except.ok r ∧
        r.statusOk = true ∧
        env.writeResult (dropboxOutPath env dropbox_url output_path) = Except.error e ∧
        DropboxHandler.download_file env dropbox_url output_path = none) ∨
      (∃ r, env.getResult (dropbox_download_url dropbox_url) = Except.ok r ∧
        r.statusOk = true ∧
        env.writeResult (dropboxOutPath env dropbox_url output_path) = Except.ok () ∧
        DropboxHandler.download_file env dropbox_url output_path =
          some (dropboxOutPath env dropbox_url output_path))) := by
  refine ⟨?_, ?_, ?_⟩
  · intro env repo_url target_dir
    cases h1 : resolveTargetDir env target_dir with
    | error e =>
      left
      exact ⟨e, rfl, by simp only [GitHubRepoHandler.clone_repo, h1]⟩
    | ok dir =>
      cases h2 : env.cloneResult (normalize_repo_url repo_url) dir with
      | error e =>
        right; left
        exact ⟨dir, e, rfl, h2,
          by simp only [GitHubRepoHandler.clone_repo, h1, h2]⟩
      | ok u =>
        cases u
        right; right
        exact ⟨dir, rfl, h2,
          by simp only [GitHubRepoHandler.clone_repo, h1, h2]⟩
  · intro env drive_url output_path
    cases h0 : extract_file_id drive_url with
    | none =>
      left
      exact ⟨rfl, by simp only [GoogleDriveHandler.download_file, h0]⟩
    | some fid =>
      by_cases hfe : fid.isEmpty
      · right; left
        have hfid : fid = [] := List.isEmpty_iff.mp hfe
        subst hfid
        exact ⟨rfl, by simp [GoogleDriveHandler.download_file, h0]⟩
      · have hne : fid ≠ [] := fun h => hfe (List.isEmpty_iff.mpr h)
        cases h1 : env.firstGet with
        | error e =>
          right; right; left
          exact ⟨fid, e, rfl, hne, rfl,
            by simp [GoogleDriveHandler.download_file, h0, hfe, h1]⟩
        | ok r0 =>
          cases h2 : driveConfirmed env r0 with
          | error e =>
            right; right; right; left
            exact ⟨fid, r0, e, rfl, hne, rfl, h2,
              by simp [GoogleDriveHandler.download_file, h0, hfe, h1, h2]⟩
          | ok resp =>
            cases h3 : env.writeResult (driveOutPath env resp fid output_path) with
            | error e =>
              right; right; right; right; left
              exact ⟨fid, r0, resp, e, rfl, hne, rfl, h2, h3,
                by simp [GoogleDriveHandler.download_file, h0, hfe, h1, h2, h3]⟩
            | ok u =>
              cases u
              right; right; right; right; right
              exact ⟨fid, r0, resp, rfl, hne, rfl, h2, h3,
                by simp [GoogleDriveHandler.download_file, h0, hfe, h1, h2, h3]⟩
  · intro env dropbox_url output_path
    cases h1 : env.getResult (dropbox_download_url dropbox_url) with
    | error e =>
      left
      exact ⟨e, rfl, by simp only [DropboxHandler.download_file, h1]⟩
    | ok r =>
      cases hs : r.statusOk with
      | false =>
        right; left
        exact ⟨r, rfl, hs, by simp [DropboxHandler.download_file, h1, hs]⟩
      | true =>
        cases h3 : env.writeResult (dropboxOutPath env dropbox_url output_path) with
        | error e =>
          right; right; left
          exact ⟨r, e, rfl, hs, rfl,
            by simp [DropboxHandler.download_file, h1, hs, h3]⟩
        | ok u =>
          cases u
          right; right; right
          exact ⟨r, rfl, hs, rfl,
            by simp [DropboxHandler.download_file, h1, hs, h3]⟩

def gitEnvOk : GitEnv :=
  { mkdtempResult := Except.ok "/tmp/github_repo_x".toList
    cloneResult := fun _ _ => Except.ok () }

/-- Claim C8 witness: on a fully successful environment, cloning the short
form `owner/repo` returns the materialized temp directory. -/
theorem C8_ingestor_boundary_witness :
    GitHubRepoHandler.clone_repo gitEnvOk "owner/repo".toList none =
      some "/tmp/github_repo_x".toList := by
  rcases C8_ingestor_boundary.1 gitEnvOk "owner/repo".toList none with
    ⟨e, h1, _⟩ | ⟨dir, e, h1, h2, _⟩ | ⟨dir, h1, h2, h3⟩
  · exact absurd h1 (by simp [resolveTargetDir, gitEnvOk])
  · exact absurd h2 (by simp [gitEnvOk])
  · simp only [resolveTargetDir, gitEnvOk, Except.ok.injEq] at h1
    subst h1
    exact h3

end RagPath
